import Mathlib

/-!
Verification development for the `hurst_inference` repository.

The driver script `output_pattern.py` is embedded below over `List ℝ`
(`np.float64` arrays are modelled as real-number sequences).  The core
estimation module `volatility.py` (imported by the driver as
`VolatilityEstimator`, `volatility_pattern`, `bipower_average_V`,
`Volatility`) is not part of the sources; those operations are modelled
from the specification, each with a doc comment starting
`Modelled from the spec:`.
-/

/-- Arithmetic mean of a list of reals (`np.mean`); division by the length,
with the empty list mapping to `0 / 0 = 0`. -/
noncomputable def mean (l : List ℝ) : ℝ := l.sum / l.length

/-- Population variance of a list of reals, as `np.var` computes it
(`ddof = 0`): mean of squared deviations from the mean. -/
noncomputable def var (l : List ℝ) : ℝ :=
  (l.map (fun x => (x - mean l) ^ 2)).sum / l.length

/-- Standard deviation of a list of reals, as `np.std` computes it
(`ddof = 0`): square root of the population variance. -/
noncomputable def std (l : List ℝ) : ℝ := Real.sqrt (var l)

/-- Driver line 59: `increments = log_price[1:] - log_price[:-1]`,
the elementwise difference of the shifted and the truncated sequence. -/
def increments (log_price : List ℝ) : List ℝ :=
  List.zipWith (fun a b => a - b) log_price.tail log_price

/-- Modelled from the spec: `bipower_average_V(log_price, window, delta)`
from the missing `volatility.py`, in the scalar form the driver consumes
(spec §4.3: "a single scalar if used to seed a global threshold"): the mean
of products of consecutive absolute increments `|r_i| * |r_{i+1}|`, scaled
by the bias-correction factor `π/2` and divided by `delta`.  The `window`
argument is passed by the caller but does not enter the global scalar. -/
noncomputable def bipower_average_V (log_price : List ℝ) (window : ℕ) (delta : ℝ) : ℝ :=
  let r := increments log_price
  let products := List.zipWith (fun a b => |a| * |b|) r r.tail
  (Real.pi / 2) * mean products / delta
lemma bipower_average_V_def (log_price : List ℝ) (window : ℕ) (delta : ℝ) :
    bipower_average_V log_price window delta =
      (Real.pi / 2) *
        mean (List.zipWith (fun a b => |a| * |b|) (increments log_price)
          (increments log_price).tail) / delta := rfl

/-- Driver lines 62-72: the truncation threshold.  `truncationValue` is
initialized to `np.inf` (modelled as `⊤` in `WithTop ℝ`) and reassigned by
the `if/elif` chain on the four recognized method names; any other method
name keeps the initial `np.inf`. -/
noncomputable def truncationValue (truncation_method : String) (log_price : List ℝ)
    (window : ℕ) (delta : ℝ) : WithTop ℝ :=
  match truncation_method with
  | "STD3" => ((3 * std (increments log_price) : ℝ) : WithTop ℝ)
  | "STD5" => ((5 * std (increments log_price) : ℝ) : WithTop ℝ)
  | "BIVAR3" =>
      ((3 * Real.sqrt (bipower_average_V log_price window delta * delta) : ℝ) : WithTop ℝ)
  | "BIVAR5" =>
      ((5 * Real.sqrt (bipower_average_V log_price window delta * delta) : ℝ) : WithTop ℝ)
  | _ => ⊤

/-- Elementwise comparison `np.abs(x) > truncationValue` for one entry:
`true` exactly when the increment's absolute value exceeds the threshold
(an infinite threshold exceeds every real, so nothing is flagged). -/
noncomputable def isTruncated (x : ℝ) (truncationValue : WithTop ℝ) : Bool :=
  @decide (truncationValue < ((|x| : ℝ) : WithTop ℝ)) (Classical.propDecidable _)

/-- Driver line 75: `truncated_points = np.abs(increments) > truncationValue`,
the elementwise boolean mask over the increment sequence. -/
noncomputable def truncated_points (increments : List ℝ) (truncationValue : WithTop ℝ) :
    List Bool :=
  increments.map (fun x => isTruncated x truncationValue)

/-- Driver line 98: `truncated_indices = np.where(truncated_points)[0] + 1`,
the positions of the `true` entries of the mask, each shifted by one. -/
noncomputable def truncated_indices (increments : List ℝ) (truncationValue : WithTop ℝ) :
    List ℕ :=
  (((truncated_points increments truncationValue).enum.filter (fun q => q.2)).map
    (fun q => q.1 + 1))

lemma isTruncated_true_iff (x : ℝ) (t : WithTop ℝ) :
    isTruncated x t = true ↔ t < ((|x| : ℝ) : WithTop ℝ) := by
  simp [isTruncated]

lemma isTruncated_false_iff (x : ℝ) (t : WithTop ℝ) :
    isTruncated x t = false ↔ ((|x| : ℝ) : WithTop ℝ) ≤ t := by
  simp [isTruncated, not_lt]

/-- Error taxonomy of the core (spec §7): configuration errors and
insufficient-data errors raised at the call boundary. -/
inductive EstError where
  | configurationError : EstError
  | insufficientData : EstError
deriving DecidableEq, Repr

/-- Modelled from the spec: the `TruncationPolicy` family of `volatility.py`
(spec §4.2), `FixedStd(k)` for the global methods and `AdaptiveBipower(k)`
for the locally adaptive ones.  The multiplier `k` is 3 or 5. -/
inductive TruncPolicy where
  | fixedStd (k : ℕ) : TruncPolicy
  | adaptiveBipower (k : ℕ) : TruncPolicy
deriving DecidableEq, Repr

/-- Modelled from the spec: resolution of the `truncation_method` string to
a `TruncationPolicy` inside `volatility.py` (spec §4.2): `STD3`, `STD5`,
`BIVAR3`, `BIVAR5` select the policy and multiplier; an unrecognized method
name fails with `ConfigurationError`. -/
def parsePolicy (truncation_method : String) : Except EstError TruncPolicy :=
  match truncation_method with
  | "STD3" => .ok (.fixedStd 3)
  | "STD5" => .ok (.fixedStd 5)
  | "BIVAR3" => .ok (.adaptiveBipower 3)
  | "BIVAR5" => .ok (.adaptiveBipower 5)
  | _ => .error .configurationError

/-- Modelled from the spec: the per-window-position bipower variance of
`volatility.py` (spec §4.3, "Returns one value per local window position"):
over the `window` consecutive increments starting at position `i`, the mean
of products of consecutive absolute increments, scaled by `π/2` and divided
by `delta`. -/
noncomputable def bipowerLocal (log_price : List ℝ) (window : ℕ) (delta : ℝ) (i : ℕ) : ℝ :=
  let seg := ((increments log_price).drop i).take window
  (Real.pi / 2) * mean (List.zipWith (fun a b => |a| * |b|) seg seg.tail) / delta

/-- Modelled from the spec: the threshold the estimator uses at window
position `i` (spec §4.2, §4.4 step 2): `FixedStd(k)` gives `k` times the
standard deviation of the entire increment sequence, one threshold reused
across all windows; `AdaptiveBipower(k)` gives `k * sqrt(bipower_variance *
delta)` with the bipower variance recomputed per window. -/
noncomputable def policyThreshold (p : TruncPolicy) (log_price : List ℝ)
    (window : ℕ) (delta : ℝ) (i : ℕ) : ℝ :=
  match p with
  | .fixedStd k => k * std (increments log_price)
  | .adaptiveBipower k => k * Real.sqrt (bipowerLocal log_price window delta i * delta)

/-- Modelled from the spec: the increments of a window retained by the
truncation rule (spec §4.4 step 3): those whose absolute value does not
exceed the threshold; the others are excluded entirely. -/
noncomputable def retained (seg : List ℝ) (truncationValue : WithTop ℝ) : List ℝ :=
  seg.filter (fun x => ! isTruncated x truncationValue)

/-- Modelled from the spec: the truncated sum of squares of a window (spec
§4.4 step 3): the sum of the squares of the retained increments only. -/
noncomputable def retainedSumSq (seg : List ℝ) (truncationValue : WithTop ℝ) : ℝ :=
  ((retained seg truncationValue).map (fun x => x ^ 2)).sum

/-- Modelled from the spec: the estimate of one rolling-window position
(spec §4.4 steps 1-5): the retained sum of squares of the window's
increments, normalized by `window * delta`; `none` flags the undefined
estimate arising when every increment of the window is truncated. -/
noncomputable def windowEstimate (p : TruncPolicy) (log_price : List ℝ)
    (window : ℕ) (delta : ℝ) (i : ℕ) : Option ℝ :=
  let seg := ((increments log_price).drop i).take window
  let thr : WithTop ℝ := ((policyThreshold p log_price window delta i : ℝ) : WithTop ℝ)
  if (retained seg thr).isEmpty then none
  else some (retainedSumSq seg thr / (window * delta))

/-- Modelled from the spec: the `Volatility` value object of `volatility.py`
(spec §3, §4.5): paired equal-length sequences of estimates and timestamps,
estimates optionally flagged undefined. -/
structure Volatility where
  values : List (Option ℝ)
  timestamps : List ℝ

/-- Modelled from the spec: `VolatilityEstimator.compute` of `volatility.py`
(spec §4.4): resolve the policy (`ConfigurationError` on an unrecognized
method), fail with `InsufficientDataError` when `N ≤ window`, otherwise
produce the `N - window` rolling-window estimates, window `i`'s estimate
aligned to the timestamp of the window's last observation (index
`i + window`). -/
noncomputable def compute (truncation_method : String) (window : ℕ) (delta : ℝ)
    (price_array : List ℝ) (timestamps : List ℝ) : Except EstError Volatility :=
  match parsePolicy truncation_method with
  | .error e => .error e
  | .ok p =>
      if price_array.length ≤ window then .error .insufficientData
      else
        let log_price := price_array.map Real.log
        .ok ⟨(List.range (price_array.length - window)).map
              (fun i => windowEstimate p log_price window delta i),
             timestamps.drop window⟩

/-- Increment `j` is flagged as truncated during `compute`: some valid
window position `i` contains increment `j` and the window's policy
threshold is exceeded by `|increment j|`. -/
noncomputable def flaggedByCompute (truncation_method : String) (log_price : List ℝ)
    (window : ℕ) (delta : ℝ) (j : ℕ) : Prop :=
  ∃ p i, parsePolicy truncation_method = .ok p ∧
    i + window ≤ (increments log_price).length ∧ i ≤ j ∧ j < i + window ∧
    isTruncated ((increments log_price).getD j 0)
      ((policyThreshold p log_price window delta i : ℝ) : WithTop ℝ) = true

/-- Modelled from the spec: the `Pattern` value object (spec §3): an ordered
sequence of aggregate values, one per intraday position. -/
structure Pattern where
  values : List ℝ

/-- Modelled from the spec: `volatility_pattern` of `volatility.py`
(spec §4.6 `pattern()`): fails with `InsufficientDataError` on an empty
input list; otherwise truncates every input to the minimum common length
and takes, at each aligned position, the arithmetic mean of the
corresponding values across days (undefined estimates are excluded from
the mean, per spec §7's instruction that downstream aggregation decides
how to treat them). -/
noncomputable def volatility_pattern : List Volatility → Except EstError Pattern
  | [] => .error .insufficientData
  | v :: vs =>
      let L := vs.foldl (fun acc u => min acc u.values.length) v.values.length
      .ok ⟨(List.range L).map
        (fun i => mean ((v :: vs).filterMap (fun u => u.values.getD i none)))⟩

/-- Embedding of the Python builtin `range(start, stop, step)` for a
positive `step`: the arithmetic progression `start, start + step, ...` of
integers below `stop`. -/
def pythonRange (start stop step : ℤ) : List ℤ :=
  if h : 0 < step ∧ start < stop then
    start :: pythonRange (start + step) stop step
  else []
termination_by (stop - start).toNat
decreasing_by
  simp only [Int.toNat_lt_toNat, gt_iff_lt]
  · omega

/-- Driver lines 134-137: the rolling sub-patterns.  The loop
`for start in range(0, len(all_vols) - window_pattern + 1, window_pattern)`
applies `volatility_pattern` to each slice
`all_vols[start : start + window_pattern]`. -/
noncomputable def small_patterns (all_vols : List Volatility) (window_pattern : ℕ) :
    List (Except EstError Pattern) :=
  (pythonRange 0 ((all_vols.length : ℤ) - window_pattern + 1) window_pattern).map
    (fun start => volatility_pattern ((all_vols.drop start.toNat).take window_pattern))

lemma pythonRange_eq (count : ℕ) (start stop step : ℤ) (hstep : 0 < step)
    (h1 : stop ≤ start + count * step)
    (h2 : count = 0 ∨ start + ((count - 1 : ℕ) : ℤ) * step < stop) :
    pythonRange start stop step =
      (List.range count).map (fun i : ℕ => start + (i : ℤ) * step) := by
  induction count generalizing start with
  | zero =>
    rw [pythonRange]
    have hns : ¬ (0 < step ∧ start < stop) := by
      push_neg
      intro _
      simp only [Nat.cast_zero, zero_mul, add_zero] at h1
      exact h1
    rw [dif_neg hns]
    rfl
  | succ n ih =>
    have hcast : ((n + 1 - 1 : ℕ) : ℤ) = (n : ℤ) := by omega
    have hnn : 0 ≤ (n : ℤ) * step := mul_nonneg (Int.natCast_nonneg n) hstep.le
    have hlt : start < stop := by
      rcases h2 with h2 | h2
      · exact absurd h2 (Nat.succ_ne_zero n)
      · rw [hcast] at h2
        linarith
    rw [pythonRange, dif_pos ⟨hstep, hlt⟩]
    have h1' : stop ≤ start + step + (n : ℤ) * step := by
      push_cast at h1
      linarith
    have h2' : n = 0 ∨ start + step + ((n - 1 : ℕ) : ℤ) * step < stop := by
      rcases Nat.eq_zero_or_pos n with hn | hn
      · exact Or.inl hn
      · right
        rcases h2 with h2 | h2
        · exact absurd h2 (Nat.succ_ne_zero n)
        · rw [hcast] at h2
          have hc : ((n - 1 : ℕ) : ℤ) = (n : ℤ) - 1 := by omega
          rw [hc]
          have harr : start + step + ((n : ℤ) - 1) * step = start + (n : ℤ) * step := by ring
          linarith
    rw [ih (start + step) h1' h2', List.range_succ_eq_map]
    simp only [List.map_cons, List.map_map, Nat.cast_zero, zero_mul, add_zero]
    congr 1
    apply List.map_congr_left
    intro i _
    simp only [Function.comp_apply]
    push_cast
    ring

lemma small_patterns_eq (all_vols : List Volatility) (wp : ℕ) (hwp : 0 < wp) :
    small_patterns all_vols wp =
      (List.range (all_vols.length / wp)).map
        (fun b => volatility_pattern ((all_vols.drop (b * wp)).take wp)) := by
  have hq : wp * (all_vols.length / wp) + all_vols.length % wp = all_vols.length :=
    Nat.div_add_mod _ _
  have hr : all_vols.length % wp < wp := Nat.mod_lt _ hwp
  have hqz : (wp : ℤ) * ((all_vols.length / wp : ℕ) : ℤ)
      + ((all_vols.length % wp : ℕ) : ℤ) = (all_vols.length : ℤ) := by exact_mod_cast hq
  have hrz : ((all_vols.length % wp : ℕ) : ℤ) < (wp : ℤ) := by exact_mod_cast hr
  rw [small_patterns,
    pythonRange_eq (all_vols.length / wp) 0 ((all_vols.length : ℤ) - wp + 1) wp
      (by exact_mod_cast hwp) (by linarith) ?side]
  · rw [List.map_map]
    apply List.map_congr_left
    intro b _
    simp only [Function.comp_apply]
    congr 2
    have hb : ((0 : ℤ) + (b : ℤ) * (wp : ℤ)) = ((b * wp : ℕ) : ℤ) := by push_cast; ring
    rw [hb, Int.toNat_natCast]
  case side =>
    rcases Nat.eq_zero_or_pos (all_vols.length / wp) with hz | hpos
    · exact Or.inl hz
    · right
      have hc : ((all_vols.length / wp - 1 : ℕ) : ℤ) = ((all_vols.length / wp : ℕ) : ℤ) - 1 := by
        omega
      rw [hc]
      have hmul : (wp : ℤ) * ((all_vols.length / wp : ℕ) : ℤ) ≤ (all_vols.length : ℤ) := by
        linarith [Int.natCast_nonneg (all_vols.length % wp)]
      have hwpz : (1 : ℤ) ≤ (wp : ℤ) := by exact_mod_cast hwp
      nlinarith

lemma slice_length (all_vols : List Volatility) (wp b : ℕ) (hwp : 0 < wp)
    (hb : b < all_vols.length / wp) :
    ((all_vols.drop (b * wp)).take wp).length = wp := by
  have h1 : (b + 1) * wp ≤ all_vols.length := by
    have := (Nat.le_div_iff_mul_le hwp).mp (Nat.succ_le_of_lt hb)
    simpa using this
  simp only [List.length_take, List.length_drop]
  have : b * wp + wp ≤ all_vols.length := by
    have : (b + 1) * wp = b * wp + wp := by ring
    omega
  omega

lemma truncated_points_length (inc : List ℝ) (tv : WithTop ℝ) :
    (truncated_points inc tv).length = inc.length := by
  simp [truncated_points]

lemma truncated_points_getD (inc : List ℝ) (tv : WithTop ℝ) (i : ℕ) (h : i < inc.length) :
    (truncated_points inc tv).getD i false = isTruncated (inc.getD i 0) tv := by
  simp [truncated_points, List.getD_eq_getElem?_getD, List.getElem?_eq_getElem h]

lemma length_filter_mono {α : Type} (l : List α) (p q : α → Bool)
    (h : ∀ x ∈ l, p x = true → q x = true) :
    (l.filter p).length ≤ (l.filter q).length := by
  induction l with
  | nil => simp
  | cons x xs ih =>
    have ih' := ih (fun y hy => h y (List.mem_cons_of_mem x hy))
    by_cases hp : p x = true
    · have hq := h x (List.mem_cons_self x xs) hp
      simp [hp, hq]
      omega
    · have hp' : p x = false := by simpa using hp
      by_cases hq : q x = true
      · simp [hp', hq]
        omega
      · have hq' : q x = false := by simpa using hq
        simp [hp', hq']
        omega

/-- C1: the truncation rule of the driver's mask (`output_pattern.py` line
75) and of the estimator's retained sum of squares (spec §4.4 step 3): an
increment is classified as truncated exactly when its absolute value
exceeds the threshold, retained exactly when its absolute value is at most
the threshold, and the sum of squares ranges over exactly the increments
the mask leaves unflagged — flagged increments are excluded entirely,
neither clipped nor replaced. -/
theorem C1_truncation_rule (inc : List ℝ) (tv : WithTop ℝ) :
    (truncated_points inc tv).length = inc.length
    ∧ (∀ i, i < inc.length →
        ((truncated_points inc tv).getD i false = true
          ↔ tv < ((|inc.getD i 0| : ℝ) : WithTop ℝ)))
    ∧ (∀ i, i < inc.length →
        ((truncated_points inc tv).getD i false = false
          ↔ ((|inc.getD i 0| : ℝ) : WithTop ℝ) ≤ tv))
    ∧ retainedSumSq inc tv =
        (((inc.zip (truncated_points inc tv)).filter (fun q => ! q.2)).map
          (fun q => q.1 ^ 2)).sum := by
  refine ⟨truncated_points_length inc tv, ?_, ?_, ?_⟩
  · intro i hi
    rw [truncated_points_getD inc tv i hi]
    exact isTruncated_true_iff _ _
  · intro i hi
    rw [truncated_points_getD inc tv i hi]
    exact isTruncated_false_iff _ _
  · unfold retainedSumSq retained truncated_points
    induction inc with
    | nil => simp
    | cons x xs ih =>
      simp only [List.map_cons, List.zip_cons_cons, List.filter_cons]
      cases hx : isTruncated x tv
      · simpa [hx] using ih
      · simpa [hx] using ih

/-- Witness for C1 at the concrete increments `[1, -3]` and threshold `2`:
the second increment is flagged as truncated exactly because `|-3| > 2`. -/
theorem C1_truncation_rule_witness :
    (truncated_points [(1 : ℝ), -3] ((2 : ℝ) : WithTop ℝ)).getD 1 false = true
      ↔ ((2 : ℝ) : WithTop ℝ) < ((|[(1 : ℝ), -3].getD 1 0| : ℝ) : WithTop ℝ) :=
  (C1_truncation_rule [(1 : ℝ), -3] ((2 : ℝ) : WithTop ℝ)).2.1 1 (by norm_num)

/-- C2 (counterexample): determining the truncation threshold for the
unrecognized method `"FOO"` does not fail: the driver's inline truncation
logic (`output_pattern.py` lines 62-75) proceeds with the default threshold
`np.inf` and flags no increment, refuting the claim that it fails with
`ConfigurationError` rather than proceeding with a default threshold. -/
theorem C2_counterexample :
    truncationValue "FOO" [(0 : ℝ), 1] 300 1 = ⊤
    ∧ truncated_points (increments [(0 : ℝ), 1])
        (truncationValue "FOO" [(0 : ℝ), 1] 300 1) = [false] := by
  have htv : truncationValue "FOO" [(0 : ℝ), 1] 300 1 = ⊤ := rfl
  refine ⟨htv, ?_⟩
  have hinc : increments [(0 : ℝ), 1] = [1] := by simp [increments]
  have hfl : isTruncated (1 : ℝ) (⊤ : WithTop ℝ) = false :=
    (isTruncated_false_iff _ _).mpr le_top
  rw [htv, hinc]
  simp [truncated_points, hfl]

/-- C2 (amended): the core `TruncationPolicy` (modelled from the spec)
fails with `ConfigurationError` on any `truncation_method` outside
`STD3`/`STD5`/`BIVAR3`/`BIVAR5`, but the driver's inline threshold
determination in `output_pattern.py` proceeds with the default threshold
`np.inf` for such a method, truncating nothing. -/
theorem C2_unrecognized_method (truncation_method : String)
    (h3 : truncation_method ≠ "STD3") (h5 : truncation_method ≠ "STD5")
    (hb3 : truncation_method ≠ "BIVAR3") (hb5 : truncation_method ≠ "BIVAR5") :
    (∀ (log_price : List ℝ) (window : ℕ) (delta : ℝ),
        truncationValue truncation_method log_price window delta = ⊤)
    ∧ parsePolicy truncation_method = .error .configurationError
    ∧ ∀ (log_price : List ℝ) (window : ℕ) (delta : ℝ) (b : Bool),
        b ∈ truncated_points (increments log_price)
            (truncationValue truncation_method log_price window delta) → b = false := by
  have htop : ∀ (log_price : List ℝ) (window : ℕ) (delta : ℝ),
      truncationValue truncation_method log_price window delta = ⊤ := by
    intro log_price window delta
    unfold truncationValue
    split <;> simp_all
  refine ⟨htop, ?_, ?_⟩
  · unfold parsePolicy
    split <;> simp_all
  · intro log_price window delta b hb
    rw [htop log_price window delta] at hb
    unfold truncated_points at hb
    rcases List.mem_map.mp hb with ⟨x, -, hx⟩
    rw [← hx]
    exact (isTruncated_false_iff _ _).mpr le_top

/-- Witness for the amended C2 at the concrete unrecognized method
`"FOO"`: the core policy fails with `ConfigurationError` while the
driver's inline threshold stays at infinity. -/
theorem C2_unrecognized_method_witness :
    parsePolicy "FOO" = .error .configurationError
    ∧ truncationValue "FOO" [(0 : ℝ), 1, 3] 300 1 = ⊤ :=
  ⟨(C2_unrecognized_method "FOO" (by decide) (by decide) (by decide) (by decide)).2.1,
   (C2_unrecognized_method "FOO" (by decide) (by decide) (by decide)
      (by decide)).1 [(0 : ℝ), 1, 3] 300 1⟩

/-- C3: the `FixedStd(k)` policy (methods `STD3` and `STD5`) yields the
single global threshold `k` times the standard deviation of the entire
increment sequence, with `k = 3` for `STD3` and `k = 5` for `STD5`; it
depends neither on `window` nor on `delta`, and the estimator-side fixed
policy threshold is the same at every window position. -/
theorem C3_fixed_std_threshold (log_price : List ℝ) (window : ℕ) (delta : ℝ)
    (window' : ℕ) (delta' : ℝ) :
    truncationValue "STD3" log_price window delta
        = ((3 * std (increments log_price) : ℝ) : WithTop ℝ)
    ∧ truncationValue "STD5" log_price window delta
        = ((5 * std (increments log_price) : ℝ) : WithTop ℝ)
    ∧ truncationValue "STD3" log_price window delta
        = truncationValue "STD3" log_price window' delta'
    ∧ truncationValue "STD5" log_price window delta
        = truncationValue "STD5" log_price window' delta'
    ∧ ∀ (k i i' : ℕ),
        policyThreshold (.fixedStd k) log_price window delta i
          = policyThreshold (.fixedStd k) log_price window delta i' :=
  ⟨rfl, rfl, rfl, rfl, fun _ _ _ => rfl⟩

/-- C4: the `AdaptiveBipower(k)` policy (methods `BIVAR3` and `BIVAR5`)
yields the threshold `k * sqrt(bipower_variance * delta)` where the
bipower variance is the output of `bipower_average_V` called with the same
`window`, with `k = 3` for `BIVAR3` and `k = 5` for `BIVAR5`. -/
theorem C4_adaptive_bipower_threshold (log_price : List ℝ) (window : ℕ) (delta : ℝ) :
    truncationValue "BIVAR3" log_price window delta
      = ((3 * Real.sqrt (bipower_average_V log_price window delta * delta) : ℝ) : WithTop ℝ)
    ∧ truncationValue "BIVAR5" log_price window delta
      = ((5 * Real.sqrt (bipower_average_V log_price window delta * delta) : ℝ) : WithTop ℝ) :=
  ⟨rfl, rfl⟩

lemma std_nonneg (l : List ℝ) : 0 ≤ std l := Real.sqrt_nonneg _

lemma isTruncated_mono (x t t' : ℝ) (h : t ≤ t') :
    isTruncated x ((t : ℝ) : WithTop ℝ) = false →
      isTruncated x ((t' : ℝ) : WithTop ℝ) = false := by
  intro hx
  rw [isTruncated_false_iff] at hx ⊢
  rw [WithTop.coe_le_coe] at hx ⊢
  linarith

/-- C5: monotonicity in the truncation multiplier.  For a fixed increment
sequence, raising the multiplier `k` (in particular from 3 to 5 in the
`FixedStd` family of `STD3`/`STD5`) can only enlarge the retained set:
every increment retained under the smaller multiplier is retained under
the larger, and the retained count never decreases. -/
theorem C5_multiplier_monotone (log_price : List ℝ) (k k' : ℝ)
    (hk : 0 ≤ k) (hkk : k ≤ k') :
    (∀ i, i < (increments log_price).length →
        (truncated_points (increments log_price)
          ((k * std (increments log_price) : ℝ) : WithTop ℝ)).getD i false = false →
        (truncated_points (increments log_price)
          ((k' * std (increments log_price) : ℝ) : WithTop ℝ)).getD i false = false)
    ∧ (retained (increments log_price)
          ((k * std (increments log_price) : ℝ) : WithTop ℝ)).length
        ≤ (retained (increments log_price)
            ((k' * std (increments log_price) : ℝ) : WithTop ℝ)).length
    ∧ (∀ (window : ℕ) (delta : ℝ) (i : ℕ), i < (increments log_price).length →
        (truncated_points (increments log_price)
          (truncationValue "STD3" log_price window delta)).getD i false = false →
        (truncated_points (increments log_price)
          (truncationValue "STD5" log_price window delta)).getD i false = false)
    ∧ ∀ (window : ℕ) (delta : ℝ),
        (retained (increments log_price)
            (truncationValue "STD3" log_price window delta)).length
          ≤ (retained (increments log_price)
              (truncationValue "STD5" log_price window delta)).length := by
  have hs : 0 ≤ std (increments log_price) := std_nonneg _
  have key : ∀ t t' : ℝ, t ≤ t' →
      (∀ i, i < (increments log_price).length →
        (truncated_points (increments log_price) ((t : ℝ) : WithTop ℝ)).getD i false = false →
        (truncated_points (increments log_price) ((t' : ℝ) : WithTop ℝ)).getD i false = false)
      ∧ (retained (increments log_price) ((t : ℝ) : WithTop ℝ)).length
          ≤ (retained (increments log_price) ((t' : ℝ) : WithTop ℝ)).length := by
    intro t t' htt
    constructor
    · intro i hi
      rw [truncated_points_getD _ _ i hi, truncated_points_getD _ _ i hi]
      exact isTruncated_mono _ _ _ htt
    · unfold retained
      apply length_filter_mono
      intro x _ hx
      simp only [Bool.not_eq_true'] at hx ⊢
      exact isTruncated_mono _ _ _ htt hx
  have hmul : k * std (increments log_price) ≤ k' * std (increments log_price) :=
    mul_le_mul_of_nonneg_right hkk hs
  have h35 : (3 : ℝ) * std (increments log_price) ≤ 5 * std (increments log_price) :=
    mul_le_mul_of_nonneg_right (by norm_num) hs
  refine ⟨(key _ _ hmul).1, (key _ _ hmul).2, ?_, ?_⟩
  · intro window delta
    exact (key _ _ h35).1
  · intro window delta
    exact (key _ _ h35).2

/-- Witness for C5 at log prices `[0, 1, 3]` and multipliers `3 ≤ 5`:
the retained count under `STD3` is at most the one under `STD5`. -/
theorem C5_multiplier_monotone_witness :
    (0 : ℝ) ≤ 3 ∧ (3 : ℝ) ≤ 5
    ∧ (retained (increments [(0 : ℝ), 1, 3])
          (truncationValue "STD3" [(0 : ℝ), 1, 3] 300 1)).length
        ≤ (retained (increments [(0 : ℝ), 1, 3])
            (truncationValue "STD5" [(0 : ℝ), 1, 3] 300 1)).length :=
  ⟨by norm_num, by norm_num,
   (C5_multiplier_monotone [(0 : ℝ), 1, 3] 3 5 (by norm_num) (by norm_num)).2.2.2 300 1⟩

/-- C6: the rolling-patterns loop (`output_pattern.py` lines 134-137)
partitions the day list into consecutive, non-overlapping blocks of
exactly `window_pattern` days starting at index 0 (block `b` is the slice
from `b * window_pattern` of length `window_pattern`), drops any trailing
partial block, applies the pattern aggregation to each block
independently, and returns an empty list — not an error — when
`window_pattern` exceeds the number of available days. -/
theorem C6_rolling_partition (all_vols : List Volatility) (window_pattern : ℕ)
    (hwp : 0 < window_pattern) :
    small_patterns all_vols window_pattern =
      (List.range (all_vols.length / window_pattern)).map
        (fun b => volatility_pattern
          ((all_vols.drop (b * window_pattern)).take window_pattern))
    ∧ (∀ b, b < all_vols.length / window_pattern →
        ((all_vols.drop (b * window_pattern)).take window_pattern).length = window_pattern)
    ∧ (all_vols.length < window_pattern → small_patterns all_vols window_pattern = []) := by
  refine ⟨small_patterns_eq _ _ hwp, fun b hb => slice_length _ _ _ hwp hb, ?_⟩
  intro hlen
  rw [small_patterns_eq _ _ hwp, Nat.div_eq_of_lt hlen]
  rfl

/-- Witness for C6 on a concrete list of three one-day volatilities with
block size 2: one full block is formed and the trailing day is dropped. -/
theorem C6_rolling_partition_witness :
    (0 : ℕ) < 2
    ∧ small_patterns [⟨[some 1], [0]⟩, ⟨[some 2], [0]⟩, ⟨[some 3], [0]⟩] 2 =
        (List.range
            (([⟨[some 1], [0]⟩, ⟨[some 2], [0]⟩,
                (⟨[some 3], [0]⟩ : Volatility)].length) / 2)).map
          (fun b => volatility_pattern
            (([⟨[some 1], [0]⟩, ⟨[some 2], [0]⟩,
                (⟨[some 3], [0]⟩ : Volatility)].drop (b * 2)).take 2)) :=
  ⟨by norm_num,
   (C6_rolling_partition
      [⟨[some 1], [0]⟩, ⟨[some 2], [0]⟩, ⟨[some 3], [0]⟩] 2 (by norm_num)).1⟩

/-- C10: with a positive `window_pattern`, every slice the rolling-patterns
loop passes to `volatility_pattern` has exactly `window_pattern` elements,
hence is never empty, so the empty-input failure of the pattern
aggregation is unreachable from the loop: every produced entry is a
successful `Pattern`. -/
theorem C10_slices_nonempty (all_vols : List Volatility) (window_pattern : ℕ)
    (hwp : 0 < window_pattern) :
    (∀ b, b < all_vols.length / window_pattern →
        ((all_vols.drop (b * window_pattern)).take window_pattern).length = window_pattern
        ∧ (all_vols.drop (b * window_pattern)).take window_pattern ≠ [])
    ∧ ∀ r ∈ small_patterns all_vols window_pattern, ∃ pat, r = Except.ok pat := by
  constructor
  · intro b hb
    have hlen := slice_length all_vols window_pattern b hwp hb
    refine ⟨hlen, ?_⟩
    intro hnil
    rw [hnil] at hlen
    simp at hlen
    omega
  · intro r hr
    rw [small_patterns_eq _ _ hwp] at hr
    rcases List.mem_map.mp hr with ⟨b, hb, hbr⟩
    have hblt : b < all_vols.length / window_pattern := List.mem_range.mp hb
    have hlen := slice_length all_vols window_pattern b hwp hblt
    rcases hsl : (all_vols.drop (b * window_pattern)).take window_pattern with _ | ⟨v, vs⟩
    · rw [hsl] at hlen
      simp at hlen
      omega
    · rw [← hbr, hsl]
      exact ⟨_, rfl⟩

/-- Witness for C10 with a single one-day volatility and block size 1: the
single slice aggregates successfully. -/
theorem C10_slices_nonempty_witness :
    (0 : ℕ) < 1
    ∧ ∃ pat, volatility_pattern [(⟨[some 1], [0]⟩ : Volatility)] = Except.ok pat := by
  refine ⟨by norm_num, ?_⟩
  have hpr : pythonRange 0 1 1 = [0] := by
    rw [pythonRange, dif_pos ⟨by norm_num, by norm_num⟩, pythonRange,
      dif_neg (by simp)]
  have hsp : small_patterns [(⟨[some 1], [0]⟩ : Volatility)] 1 =
      [volatility_pattern [(⟨[some 1], [0]⟩ : Volatility)]] := by
    unfold small_patterns
    norm_num [hpr]
  exact (C10_slices_nonempty [(⟨[some 1], [0]⟩ : Volatility)] 1 (by norm_num)).2
    (volatility_pattern [(⟨[some 1], [0]⟩ : Volatility)])
    (by rw [hsp]; exact List.mem_singleton.mpr rfl)

/-- C8: for a price series of `N` observations with `N > window`, the
volatility computation succeeds and produces exactly `N - window`
estimates paired with exactly `N - window` timestamps, and the estimate of
window position `i` is aligned to the timestamp of that window's last
observation, index `i + window`. -/
theorem C8_output_alignment (truncation_method : String) (p : TruncPolicy)
    (window : ℕ) (delta : ℝ) (price_array timestamps : List ℝ)
    (hp : parsePolicy truncation_method = .ok p)
    (hts : timestamps.length = price_array.length)
    (hw : window < price_array.length) :
    ∃ v, compute truncation_method window delta price_array timestamps = .ok v
      ∧ v.values.length = price_array.length - window
      ∧ v.timestamps.length = price_array.length - window
      ∧ ∀ i, i < price_array.length - window →
          v.timestamps.getD i 0 = timestamps.getD (i + window) 0 := by
  refine ⟨⟨(List.range (price_array.length - window)).map
      (fun i => windowEstimate p (price_array.map Real.log) window delta i),
    timestamps.drop window⟩, ?_, by simp, by simp [hts], ?_⟩
  · have hnle : ¬ price_array.length ≤ window := by omega
    unfold compute
    rw [hp]
    simp [hnle]
  · intro i hi
    simp only
    rw [List.getD_eq_getElem?_getD, List.getD_eq_getElem?_getD, List.getElem?_drop,
      Nat.add_comm window i]

/-- Witness for C8 at prices `[1, 2, 3]`, timestamps `[0, 1, 2]`,
`window = 1`, method `STD3`: the computation succeeds. -/
theorem C8_output_alignment_witness :
    1 < [(1 : ℝ), 2, 3].length
    ∧ (compute "STD3" 1 1 [(1 : ℝ), 2, 3] [(0 : ℝ), 1, 2]).isOk = true := by
  refine ⟨by norm_num, ?_⟩
  obtain ⟨v, h1, -, -, -⟩ := C8_output_alignment "STD3" (.fixedStd 3) 1 1
    [(1 : ℝ), 2, 3] [(0 : ℝ), 1, 2] rfl (by simp) (by norm_num)
  rw [h1]
  rfl

lemma increments_length (log_price : List ℝ) :
    (increments log_price).length = log_price.length - 1 := by
  simp [increments]

/-- C9: for a non-empty price array and any threshold, every index in the
driver's `truncated_indices` (the flagged increment positions shifted by
one, `output_pattern.py` line 98) is at least 1 and at most
`len(price_array) - 1`, so indexing the price array and the timestamp
frame with it stays in bounds. -/
theorem C9_truncated_indices_in_bounds (price_array : List ℝ) (tv : WithTop ℝ)
    (hp : 0 < price_array.length) :
    ∀ j ∈ truncated_indices (increments (price_array.map Real.log)) tv,
      0 < j ∧ j ≤ price_array.length - 1 := by
  intro j hj
  unfold truncated_indices at hj
  rcases List.mem_map.mp hj with ⟨q, hqmem, hq⟩
  have hqenum : q ∈ (truncated_points (increments (price_array.map Real.log)) tv).enum :=
    (List.mem_filter.mp hqmem).1
  have hqlt : q.1 < (truncated_points (increments (price_array.map Real.log)) tv).length := by
    rw [List.enum_eq_zip_range] at hqenum
    exact List.mem_range.mp (List.of_mem_zip hqenum).1
  rw [truncated_points_length, increments_length, List.length_map] at hqlt
  omega

/-- Witness for C9 at the price array `[1, exp 1]` and threshold `0`: the
single increment `1` is flagged, its shifted index `1` is in bounds. -/
theorem C9_truncated_indices_in_bounds_witness :
    0 < [(1 : ℝ), Real.exp 1].length
    ∧ (0 < 1 ∧ 1 ≤ [(1 : ℝ), Real.exp 1].length - 1) := by
  refine ⟨by norm_num, ?_⟩
  apply C9_truncated_indices_in_bounds [(1 : ℝ), Real.exp 1]
    ((0 : ℝ) : WithTop ℝ) (by norm_num) 1
  have hlog : [(1 : ℝ), Real.exp 1].map Real.log = [0, 1] := by
    simp [Real.log_exp]
  have hinc : increments [(0 : ℝ), 1] = [1] := by simp [increments]
  have htr : isTruncated (1 : ℝ) ((0 : ℝ) : WithTop ℝ) = true :=
    (isTruncated_true_iff _ _).mpr (WithTop.coe_lt_coe.mpr (by norm_num))
  rw [hlog, hinc]
  unfold truncated_indices truncated_points
  simp only [List.map_cons, List.map_nil, htr]
  decide

/-- C7 (amended): for the global methods `STD3` and `STD5` (with at least
one window available) the driver's inline visualization logic flags
exactly the increments that the estimator's own truncation flags during
`compute`; for the adaptive `BIVAR` methods the driver's single global
threshold can disagree with the estimator's per-window thresholds (see the
counterexample). -/
theorem C7_visualization_consistency (truncation_method : String)
    (log_price : List ℝ) (window : ℕ) (delta : ℝ)
    (hm : truncation_method = "STD3" ∨ truncation_method = "STD5")
    (hw : 0 < window) (hlen : window ≤ (increments log_price).length) :
    ∀ j, j < (increments log_price).length →
      ((truncated_points (increments log_price)
          (truncationValue truncation_method log_price window delta)).getD j false = true
        ↔ flaggedByCompute truncation_method log_price window delta j) := by
  obtain ⟨k, hk, hpol⟩ : ∃ k : ℕ,
      truncationValue truncation_method log_price window delta
        = (((k : ℝ) * std (increments log_price) : ℝ) : WithTop ℝ)
      ∧ parsePolicy truncation_method = .ok (.fixedStd k) := by
    rcases hm with h | h
    · subst h
      refine ⟨3, ?_, rfl⟩
      rw [show ((3 : ℕ) : ℝ) = (3 : ℝ) by norm_num]
      rfl
    · subst h
      refine ⟨5, ?_, rfl⟩
      rw [show ((5 : ℕ) : ℝ) = (5 : ℝ) by norm_num]
      rfl
  intro j hj
  rw [truncated_points_getD _ _ j hj, hk]
  constructor
  · intro htr
    refine ⟨.fixedStd k, min j ((increments log_price).length - window), hpol, ?_, ?_, ?_, ?_⟩
    · rcases le_total j ((increments log_price).length - window) with h | h <;> omega
    · exact min_le_left _ _
    · rcases le_total j ((increments log_price).length - window) with h | h
      · rw [min_eq_left h]
        omega
      · rw [min_eq_right h]
        omega
    · exact htr
  · rintro ⟨p', i, hp', -, -, -, htr⟩
    rw [hpol] at hp'
    injection hp' with hp'
    rw [← hp'] at htr
    exact htr

/-- Witness for the amended C7 at log prices `[0, 1, 3]`, `window = 2`,
method `STD3`: driver and estimator agree on increment position 1. -/
theorem C7_visualization_consistency_witness :
    (("STD3" : String) = "STD3" ∨ ("STD3" : String) = "STD5")
    ∧ (0 : ℕ) < 2 ∧ 2 ≤ (increments [(0 : ℝ), 1, 3]).length
    ∧ ((truncated_points (increments [(0 : ℝ), 1, 3])
          (truncationValue "STD3" [(0 : ℝ), 1, 3] 2 1)).getD 1 false = true
        ↔ flaggedByCompute "STD3" [(0 : ℝ), 1, 3] 2 1 1) := by
  have hlen : (increments [(0 : ℝ), 1, 3]).length = 2 := by simp [increments]
  exact ⟨Or.inl rfl, by norm_num, by rw [hlen],
    C7_visualization_consistency "STD3" [(0 : ℝ), 1, 3] 2 1 (Or.inl rfl)
      (by norm_num) (by rw [hlen]) 1 (by rw [hlen]; norm_num)⟩

/-- C7 (counterexample): with method `BIVAR3`, log prices `[0, 10, 11,
12]`, `window = 2` and `delta = 1`, the driver's inline logic flags the
first increment (its global threshold `3 * sqrt(11π/4)` is below 10) while
the estimator's per-window adaptive threshold in the only window
containing that increment is `3 * sqrt(5π) ≥ 10`, so `compute` does not
truncate it: visualization and computation disagree. -/
theorem C7_visualization_counterexample :
    (truncated_points (increments [(0 : ℝ), 10, 11, 12])
        (truncationValue "BIVAR3" [(0 : ℝ), 10, 11, 12] 2 1)).getD 0 false = true
    ∧ ¬ flaggedByCompute "BIVAR3" [(0 : ℝ), 10, 11, 12] 2 1 0 := by
  have hinc : increments [(0 : ℝ), 10, 11, 12] = [10, 1, 1] := by
    simp [increments]; norm_num
  have h10 : |(10 : ℝ)| = 10 := abs_of_nonneg (by norm_num)
  have h1a : |(1 : ℝ)| = 1 := abs_one
  have hgd : ([(10 : ℝ), 1, 1]).getD 0 0 = 10 := rfl
  have hbav : bipower_average_V [(0 : ℝ), 10, 11, 12] 2 1 = 11 * Real.pi / 4 := by
    rw [bipower_average_V_def, hinc]
    rw [show ([(10 : ℝ), 1, 1]).tail = [1, 1] from rfl]
    rw [show List.zipWith (fun a b => |a| * |b|) [(10 : ℝ), 1, 1] [(1 : ℝ), 1]
        = [10, 1] from by norm_num [h10, h1a]]
    rw [show mean [(10 : ℝ), 1] = 11 / 2 from by norm_num [mean]]
    ring
  constructor
  · rw [truncated_points_getD _ _ 0 (by rw [hinc]; norm_num), hinc, hgd,
      isTruncated_true_iff]
    rw [show truncationValue "BIVAR3" [(0 : ℝ), 10, 11, 12] 2 1
        = ((3 * Real.sqrt (bipower_average_V [(0 : ℝ), 10, 11, 12] 2 1 * 1) : ℝ) :
            WithTop ℝ) from rfl, h10]
    apply WithTop.coe_lt_coe.mpr
    rw [hbav]
    have hπ : Real.pi < 4 := Real.pi_lt_four
    have hsq : Real.sqrt (11 * Real.pi / 4 * 1) < 10 / 3 := by
      rw [Real.sqrt_lt' (by norm_num : (0 : ℝ) < 10 / 3)]
      nlinarith [hπ]
    linarith
  · rintro ⟨p, i, hp, hi1, hi2, hi3, htr⟩
    have hp' : TruncPolicy.adaptiveBipower 3 = p := by
      rw [show parsePolicy "BIVAR3" = Except.ok (.adaptiveBipower 3) from rfl] at hp
      injection hp
    rw [← hp'] at htr
    have hi0 : i = 0 := by omega
    subst hi0
    rw [hinc, hgd] at htr
    have hloc : bipowerLocal [(0 : ℝ), 10, 11, 12] 2 1 0 = 5 * Real.pi := by
      unfold bipowerLocal
      rw [hinc]
      rw [show (([(10 : ℝ), 1, 1]).drop 0).take 2 = [10, 1] from rfl]
      show Real.pi / 2 * mean (List.zipWith (fun a b => |a| * |b|)
        [(10 : ℝ), 1] ([(10 : ℝ), 1]).tail) / 1 = 5 * Real.pi
      rw [show ([(10 : ℝ), 1]).tail = [1] from rfl]
      rw [show List.zipWith (fun a b => |a| * |b|) [(10 : ℝ), 1] [(1 : ℝ)]
          = [10] from by norm_num [h10, h1a]]
      rw [show mean [(10 : ℝ)] = 10 from by norm_num [mean]]
      ring
    have hthr : policyThreshold (.adaptiveBipower 3) [(0 : ℝ), 10, 11, 12] 2 1 0
        = 3 * Real.sqrt (5 * Real.pi * 1) := by
      show ((3 : ℕ) : ℝ) * Real.sqrt (bipowerLocal [(0 : ℝ), 10, 11, 12] 2 1 0 * 1)
          = 3 * Real.sqrt (5 * Real.pi * 1)
      rw [hloc]
      norm_num
    rw [hthr, isTruncated_true_iff, h10, WithTop.coe_lt_coe] at htr
    have hπ : 3 < Real.pi := Real.pi_gt_three
    have h5π : (10 : ℝ) / 3 ≤ Real.sqrt (5 * Real.pi * 1) := by
      rw [Real.le_sqrt (by norm_num : (0 : ℝ) ≤ 10 / 3) (by nlinarith [hπ])]
      nlinarith [hπ]
    linarith
